import Mathlib

/-!
# Verification of the learning-to-rank evaluation helpers

A shallow embedding of `azs_helpers/l2r_helper.py`:

* `compute_judgments_after_training` — scores are modelled as rationals, the
  numpy `argsort` as a sort of the index list, the fancy-index scatter
  `judgments[sorted_idxs] = sorted_labels` as a fold of `List.set` writes into
  a fresh integer array (numpy truncates floats toward zero when assigning
  into an integer array, modelled by `truncQ`).
* `dcg_at_k` / `ndcg_at_k` — relevances are modelled as reals, `np.log2` as
  `Real.logb 2`; a raised `ValueError` is modelled as `none`.
* `get_range_ndcg` — the loop over cutoffs; a `ZeroDivisionError` is `none`.
* `escape_query` — strings are modelled as `List Char`, Python's
  single-character `str.replace` as a `flatMap`.
-/

open scoped Classical

open scoped List

namespace L2R

/-- Truncation of a rational toward zero, as numpy does when a float value is
assigned into an integer array. -/
def truncQ (q : ℚ) : ℤ := if 0 ≤ q then ⌊q⌋ else ⌈q⌉

/-- `relevance_scores.argsort()`: the indices that sort the list ascending.
numpy's default sort is not stable; any tie-break produces some permutation of
the indices sorting the values ascending, and insertion sort realises one. -/
def argsort (s : List ℚ) : List ℕ :=
  (List.range s.length).insertionSort (fun i j => s.getD i 0 ≤ s.getD j 0)

/-- `judgments = np.empty_like(sorted_idxs); judgments[idxs] = vals`:
a fresh integer array of length `n` (entries default to `0`) receiving the
write `judgments[idxs[p]] = vals[p]` for each `p` in turn. -/
def scatter (n : ℕ) (idxs : List ℕ) (vals : List ℤ) : List ℤ :=
  (idxs.zip vals).foldl (fun a p => a.set p.1 p.2) (List.replicate n 0)

/-- The loop body of `compute_judgments_after_training` for one query and one
scorer: argsort the scores, sort the labels ascending, scatter the sorted
labels (cast to integers on assignment) onto the sorted index positions. -/
def queryJudgments (scores labels : List ℚ) : List ℤ :=
  scatter scores.length (argsort scores)
    ((labels.insertionSort (· ≤ ·)).map truncQ)

/-- `compute_judgments_after_training(predictions, query_doc_counts, X_test,
y_test)`: iterate over the query document counts, slicing all flat vectors by
a running offset (`take`/`drop`), and produce the model judgments, the
search-score judgments and the raw ground-truth baseline per query. -/
def compute_judgments_after_training :
    List ℚ → List ℕ → List ℚ → List ℚ →
      List (List ℤ) × List (List ℤ) × List (List ℚ)
  | _, [], _, _ => ([], [], [])
  | preds, c :: cs, azs, y =>
    let rest := compute_judgments_after_training
      (preds.drop c) cs (azs.drop c) (y.drop c)
    (queryJudgments (preds.take c) (y.take c) :: rest.1,
     queryJudgments (azs.take c) (y.take c) :: rest.2.1,
     y.take c :: rest.2.2)

/-- The query slices of a flat vector, as cut by the query document counts. -/
def slices {α : Type} : List α → List ℕ → List (List α)
  | _, [] => []
  | xs, c :: cs => xs.take c :: slices (xs.drop c) cs

/-- `sorted(r, reverse=True)`: the relevances sorted in descending order. -/
noncomputable def sortDesc (r : List ℝ) : List ℝ := r.insertionSort (· ≥ ·)

/-- `dcg_at_k(r, k, method)`.  The relevances are truncated to the first `k`
entries; on an empty truncation `0.0` is returned.  Method 0 adds the head at
weight one and divides the rest elementwise by `log2(arange(2, size + 1))`,
method 1 divides all entries elementwise by `log2(arange(2, size + 2))`, and
any other method raises `ValueError`, modelled as `none`. -/
noncomputable def dcg_at_k (r : List ℝ) (k : ℕ) (method : ℕ) : Option ℝ :=
  let t := r.take k
  if t = [] then some 0
  else if method = 0 then
    some (t.headD 0 +
      (((t.drop 1).zip ((List.range' 2 (t.length - 1)).map
          (fun i : ℕ => Real.logb 2 (i : ℝ)))).map (fun p => p.1 / p.2)).sum)
  else if method = 1 then
    some (((t.zip ((List.range' 2 t.length).map
        (fun i : ℕ => Real.logb 2 (i : ℝ)))).map (fun p => p.1 / p.2)).sum)
  else none

/-- `ndcg_at_k(r, k, method)`: the ideal DCG of the descending-sorted
relevances is computed first; if it is (exactly) zero, `0.0` is returned,
otherwise the DCG of `r` is divided by it. -/
noncomputable def ndcg_at_k (r : List ℝ) (k : ℕ) (method : ℕ) : Option ℝ :=
  (dcg_at_k (sortDesc r) k method).bind (fun dmax =>
    if dmax = 0 then some 0
    else (dcg_at_k r k method).map (fun d => d / dmax))

/-- The inner loop of `get_range_ndcg` for one cutoff: sum the per-query
NDCG values and count how many of them are non-zero. -/
noncomputable def sumCount (k : ℕ) : List (List ℝ) → Option (ℝ × ℕ)
  | [] => some (0, 0)
  | r :: rest =>
    (ndcg_at_k r k 0).bind (fun v =>
      (sumCount k rest).map (fun sc =>
        (v + sc.1, if v ≠ 0 then sc.2 + 1 else sc.2)))

/-- The outer loop of `get_range_ndcg` over the cutoffs: `ndcg_sum / count`
raises `ZeroDivisionError` when the non-zero count is zero, modelled as
`none`. -/
noncomputable def rangeLoop (ndcgs : List (List ℝ)) : List ℕ → Option (List ℝ)
  | [] => some []
  | k :: ks =>
    (sumCount k ndcgs).bind (fun sc =>
      if sc.2 = 0 then none
      else (rangeLoop ndcgs ks).map (fun rest => sc.1 / (sc.2 : ℝ) :: rest))

/-- `get_range_ndcg(ndcgs, k_start, k_end)`: one averaged NDCG value per
cutoff `k` in `range(k_start, k_end)`. -/
noncomputable def get_range_ndcg (ndcgs : List (List ℝ))
    (k_start k_end : ℕ) : Option (List ℝ) :=
  rangeLoop ndcgs (List.range' k_start (k_end - k_start))

/-- The reference DCG of the specification: truncate to the first `k` entries;
for method 0 the result is `t[0]` plus the sum over one-indexed positions
`i = 2 .. |t|` of `t[i-1] / log2(i)`, for method 1 the sum over positions
`i = 1 .. |t|` of `t[i-1] / log2(i+1)`; an empty truncation gives `0.0`. -/
noncomputable def dcgRef (r : List ℝ) (k : ℕ) (method : ℕ) : ℝ :=
  let t := r.take k
  if method = 0 then
    t.headD 0 + ∑ i ∈ Finset.Icc 2 t.length, t.getD (i - 1) 0 / Real.logb 2 (i : ℝ)
  else
    ∑ i ∈ Finset.Icc 1 t.length, t.getD (i - 1) 0 / Real.logb 2 ((i : ℝ) + 1)

/-- The reference NDCG of the specification: the DCG divided by the ideal DCG
of the descending-sorted relevances, with `0.0` when the ideal DCG is zero. -/
noncomputable def ndcgRef (r : List ℝ) (k : ℕ) (method : ℕ) : ℝ :=
  if dcgRef (sortDesc r) k method = 0 then 0
  else dcgRef r k method / dcgRef (sortDesc r) k method

/-- The list of reserved characters escaped by `escape_query`, in the order
the source iterates over them (backslash first). -/
def reservedChars : List Char :=
  ['\\', '+', '-', '&', '|', '!', '(', ')', '\x7b', '\x7d', '[', ']',
   '^', '\"', '~', '*', '?', ':', '/']

/-- Python's `query.replace(c, new)` for a single-character pattern `c`:
every occurrence of `c` is replaced by the string `new`. -/
def replaceChar (q : List Char) (c : Char) (new : List Char) : List Char :=
  q.flatMap (fun ch => if ch = c then new else [ch])

/-- `escape_query(query)`: for each reserved character in turn, replace each
of its occurrences by a backslash followed by the character. -/
def escape_query (q : List Char) : List Char :=
  reservedChars.foldl (fun acc c => replaceChar acc c ['\\', c]) q

/-- The reference escaping of the specification: each occurrence of each
reserved character is prefixed by a single backslash, all other characters
are unchanged. -/
def escapeRef (q : List Char) : List Char :=
  q.flatMap (fun ch => if ch ∈ reservedChars then ['\\', ch] else [ch])

/-! ### Lemmas about `escape_query` -/

theorem replaceChar_append (a b : List Char) (c : Char) (new : List Char) :
    replaceChar (a ++ b) c new = replaceChar a c new ++ replaceChar b c new := by
  simp [replaceChar]

theorem escape_foldl_append (cs : List Char) (a b : List Char) :
    cs.foldl (fun acc c => replaceChar acc c ['\\', c]) (a ++ b) =
      cs.foldl (fun acc c => replaceChar acc c ['\\', c]) a ++
        cs.foldl (fun acc c => replaceChar acc c ['\\', c]) b := by
  induction cs generalizing a b with
  | nil => rfl
  | cons c cs ih => simp only [List.foldl_cons, replaceChar_append, ih]

theorem replaceChar_singleton_of_ne (ch c : Char) (new : List Char)
    (h : ch ≠ c) : replaceChar [ch] c new = [ch] := by
  simp [replaceChar, h]

theorem escape_query_singleton (ch : Char) :
    escape_query [ch] = escapeRef [ch] := by
  by_cases h : ch ∈ reservedChars
  · simp only [reservedChars, List.mem_cons, List.not_mem_nil, or_false] at h
    rcases h with h | h | h | h | h | h | h | h | h | h | h | h | h | h | h |
      h | h | h | h <;> subst h <;> decide
  · have h' := h
    simp only [reservedChars, List.mem_cons, List.not_mem_nil, or_false,
      not_or] at h'
    obtain ⟨h1, h2, h3, h4, h5, h6, h7, h8, h9, h10, h11, h12, h13, h14, h15,
      h16, h17, h18, h19⟩ := h'
    simp only [escape_query, reservedChars, List.foldl_cons, List.foldl_nil,
      replaceChar_singleton_of_ne _ _ _ h1, replaceChar_singleton_of_ne _ _ _ h2,
      replaceChar_singleton_of_ne _ _ _ h3, replaceChar_singleton_of_ne _ _ _ h4,
      replaceChar_singleton_of_ne _ _ _ h5, replaceChar_singleton_of_ne _ _ _ h6,
      replaceChar_singleton_of_ne _ _ _ h7, replaceChar_singleton_of_ne _ _ _ h8,
      replaceChar_singleton_of_ne _ _ _ h9, replaceChar_singleton_of_ne _ _ _ h10,
      replaceChar_singleton_of_ne _ _ _ h11, replaceChar_singleton_of_ne _ _ _ h12,
      replaceChar_singleton_of_ne _ _ _ h13, replaceChar_singleton_of_ne _ _ _ h14,
      replaceChar_singleton_of_ne _ _ _ h15, replaceChar_singleton_of_ne _ _ _ h16,
      replaceChar_singleton_of_ne _ _ _ h17, replaceChar_singleton_of_ne _ _ _ h18,
      replaceChar_singleton_of_ne _ _ _ h19]
    simp [escapeRef, h]

/-! ### Lemmas about `scatter`, `argsort` and `queryJudgments` -/

theorem foldl_set_length (l : List (ℕ × ℤ)) :
    ∀ acc : List ℤ,
      (l.foldl (fun a p => a.set p.1 p.2) acc).length = acc.length := by
  induction l with
  | nil => intro acc; rfl
  | cons p l ih => intro acc; rw [List.foldl_cons, ih]; simp

theorem scatter_length (n : ℕ) (idxs : List ℕ) (vals : List ℤ) :
    (scatter n idxs vals).length = n := by
  rw [scatter, foldl_set_length]; simp

theorem foldl_set_range' (vals : List ℤ) :
    ∀ (i : ℕ) (acc : List ℤ), acc.length = i + vals.length →
      ((List.range' i vals.length).zip vals).foldl
          (fun a p => a.set p.1 p.2) acc = acc.take i ++ vals := by
  induction vals with
  | nil =>
    intro i acc h
    simp only [List.length_nil, Nat.add_zero] at h
    simp [List.take_of_length_le (Nat.le_of_eq h)]
  | cons v vs ih =>
    intro i acc h
    simp only [List.length_cons] at h
    rw [List.length_cons, List.range'_succ, List.zip_cons_cons,
      List.foldl_cons]
    have hlen : (acc.set i v).length = (i + 1) + vs.length := by
      simp only [List.length_set, h]; omega
    rw [ih (i + 1) (acc.set i v) hlen]
    have hi : i < acc.length := by omega
    have hset : acc.set i v = acc.take i ++ v :: acc.drop (i + 1) := by
      rw [List.set_eq_take_append_cons_drop, if_pos hi]
    have htake : (acc.set i v).take (i + 1) = acc.take i ++ [v] := by
      rw [hset]
      have hlt : (acc.take i).length = i := by
        simp [List.length_take]; omega
      calc (acc.take i ++ v :: acc.drop (i + 1)).take (i + 1)
          = (acc.take i ++ v :: acc.drop (i + 1)).take ((acc.take i).length + 1) := by
            rw [hlt]
        _ = acc.take i ++ (v :: acc.drop (i + 1)).take 1 := List.take_append 1
        _ = acc.take i ++ [v] := by simp
    rw [htake, List.append_assoc]
    rfl

theorem argsort_perm (s : List ℚ) :
    (argsort s).Perm (List.range s.length) :=
  List.perm_insertionSort _ _

theorem argsort_length (s : List ℚ) : (argsort s).length = s.length := by
  simpa using (argsort_perm s).length_eq

theorem argsort_nodup (s : List ℚ) : (argsort s).Nodup :=
  (argsort_perm s).nodup_iff.mpr (List.nodup_range _)

theorem argsort_mem_lt (s : List ℚ) (i : ℕ) (h : i ∈ argsort s) :
    i < s.length := by
  have := (argsort_perm s).mem_iff.mp h
  simpa using this

theorem argsort_of_pairwise_lt (s : List ℚ) (hs : s.Pairwise (· < ·)) :
    argsort s = List.range s.length := by
  apply List.Sorted.insertionSort_eq
  have hrange := List.pairwise_lt_range s.length
  refine hrange.imp_of_mem ?_
  intro i j hi hj hij
  have hi' : i < s.length := List.mem_range.mp hi
  have hj' : j < s.length := List.mem_range.mp hj
  have := (List.pairwise_iff_getElem.mp hs) i j hi' hj' hij
  rw [List.getD_eq_getElem s 0 hi', List.getD_eq_getElem s 0 hj']
  exact le_of_lt this

theorem set_append_old_perm (acc : List ℤ) (i : ℕ) (v : ℤ)
    (h : i < acc.length) :
    (acc.set i v ++ [acc.getD i 0]).Perm (v :: acc) := by
  have hset : acc.set i v = acc.take i ++ v :: acc.drop (i + 1) := by
    rw [List.set_eq_take_append_cons_drop, if_pos h]
  have hacc : acc = acc.take i ++ acc.getD i 0 :: acc.drop (i + 1) := by
    conv_lhs => rw [← List.take_append_drop i acc]
    rw [List.drop_eq_getElem_cons h, List.getD_eq_getElem acc 0 h]
  rw [hset]
  conv_rhs => rw [hacc]
  calc (acc.take i ++ v :: acc.drop (i + 1)) ++ [acc.getD i 0]
      = acc.take i ++ v :: (acc.drop (i + 1) ++ [acc.getD i 0]) := by
        simp [List.append_assoc]
    _ ~ v :: (acc.take i ++ (acc.drop (i + 1) ++ [acc.getD i 0])) :=
        List.perm_middle
    _ = v :: ((acc.take i ++ acc.drop (i + 1)) ++ [acc.getD i 0]) := by
        rw [List.append_assoc]
    _ ~ v :: (acc.getD i 0 :: (acc.take i ++ acc.drop (i + 1))) :=
        List.Perm.cons v (by
          simpa using (@List.perm_append_comm ℤ
            (acc.take i ++ acc.drop (i + 1)) [acc.getD i 0]))
    _ ~ v :: (acc.take i ++ acc.getD i 0 :: acc.drop (i + 1)) :=
        List.Perm.cons v List.perm_middle.symm

theorem foldl_set_perm (idxs : List ℕ) :
    ∀ (vals : List ℤ) (acc : List ℤ), idxs.Nodup →
      (∀ i ∈ idxs, i < acc.length) → vals.length = idxs.length →
      ((idxs.zip vals).foldl (fun a p => a.set p.1 p.2) acc ++
          idxs.map (fun i => acc.getD i 0)).Perm (vals ++ acc) := by
  induction idxs with
  | nil =>
    intro vals acc _ _ hlen
    obtain rfl : vals = [] := List.length_eq_zero.mp (by simpa using hlen)
    simp
  | cons i idxs ih =>
    intro vals acc hnd hb hlen
    obtain ⟨v, vs, rfl⟩ : ∃ v vs, vals = v :: vs := by
      cases vals with
      | nil => simp at hlen
      | cons v vs => exact ⟨v, vs, rfl⟩
    rw [List.zip_cons_cons, List.foldl_cons]
    have hi : i < acc.length := hb i (List.mem_cons_self i idxs)
    have hnd' : idxs.Nodup := hnd.of_cons
    have hb' : ∀ j ∈ idxs, j < (acc.set i v).length := by
      intro j hj
      rw [List.length_set]
      exact hb j (List.mem_cons_of_mem _ hj)
    have hlen' : vs.length = idxs.length := by simpa using hlen
    have hrec := ih vs (acc.set i v) hnd' hb' hlen'
    have hmap : idxs.map (fun j => (acc.set i v).getD j 0) =
        idxs.map (fun j => acc.getD j 0) := by
      apply List.map_congr_left
      intro j hj
      have hne : i ≠ j := by
        intro hij
        exact (List.nodup_cons.mp hnd).1 (hij ▸ hj)
      simp only [List.getD_eq_getElem?_getD, List.getElem?_set_ne hne]
    rw [hmap] at hrec
    set res := (idxs.zip vs).foldl (fun a p => a.set p.1 p.2) (acc.set i v)
      with hres
    calc res ++ (i :: idxs).map (fun j => acc.getD j 0)
        = res ++ acc.getD i 0 :: idxs.map (fun j => acc.getD j 0) := by
          rw [List.map_cons]
      _ ~ acc.getD i 0 :: (res ++ idxs.map (fun j => acc.getD j 0)) :=
          List.perm_middle
      _ ~ acc.getD i 0 :: (vs ++ acc.set i v) :=
          List.Perm.cons _ hrec
      _ ~ vs ++ acc.getD i 0 :: acc.set i v := List.perm_middle.symm
      _ ~ vs ++ (acc.set i v ++ [acc.getD i 0]) :=
          List.Perm.append_left vs (by
            simpa using (@List.perm_append_comm ℤ
              [acc.getD i 0] (acc.set i v)))
      _ ~ vs ++ v :: acc :=
          List.Perm.append_left vs (set_append_old_perm acc i v hi)
      _ ~ v :: (vs ++ acc) := List.perm_middle
      _ = (v :: vs) ++ acc := by rw [List.cons_append]

theorem queryJudgments_length (s y : List ℚ) :
    (queryJudgments s y).length = s.length := by
  rw [queryJudgments, scatter_length]

theorem queryJudgments_perm (s y : List ℚ) (hlen : y.length = s.length) :
    (queryJudgments s y).Perm (y.map truncQ) := by
  have hvals : ((y.insertionSort (· ≤ ·)).map truncQ).length =
      (argsort s).length := by
    simp [argsort_length, hlen]
  have hb : ∀ i ∈ argsort s, i < (List.replicate s.length (0 : ℤ)).length := by
    intro i hi
    simpa using argsort_mem_lt s i hi
  have hperm := foldl_set_perm (argsort s)
    ((y.insertionSort (· ≤ ·)).map truncQ)
    (List.replicate s.length 0) (argsort_nodup s) hb hvals
  have hzero : (argsort s).map
      (fun i => (List.replicate s.length (0 : ℤ)).getD i 0) =
        List.replicate (argsort s).length 0 := by
    rw [List.eq_replicate_iff]
    constructor
    · simp
    · intro b hb'
      simp only [List.mem_map] at hb'
      obtain ⟨i, _, rfl⟩ := hb'
      simp [List.getD_eq_getElem?_getD, List.getElem?_replicate]
      split <;> rfl
  rw [hzero, argsort_length] at hperm
  have hq : (queryJudgments s y ++ List.replicate s.length 0).Perm
      (((y.insertionSort (· ≤ ·)).map truncQ) ++
        List.replicate s.length 0) := hperm
  have hcancel := (List.perm_append_right_iff
    (List.replicate s.length (0 : ℤ))).mp hq
  exact hcancel.trans ((List.perm_insertionSort _ y).map truncQ)

theorem queryJudgments_of_monotone (s y : List ℚ)
    (hs : s.Pairwise (· < ·)) (hy : y.Pairwise (· < ·))
    (hlen : y.length = s.length) :
    queryJudgments s y = y.map truncQ := by
  rw [queryJudgments, argsort_of_pairwise_lt s hs]
  have hysorted : y.insertionSort (· ≤ ·) = y :=
    List.Sorted.insertionSort_eq (hy.imp le_of_lt)
  rw [hysorted, scatter, List.range_eq_range']
  have hlen' : s.length = (y.map truncQ).length := by simp [hlen]
  rw [hlen']
  exact foldl_set_range' (y.map truncQ) 0 (List.replicate _ 0) (by simp)

/-! ### Lemmas about `compute_judgments_after_training` -/

theorem cjat_baseline (preds : List ℚ) (qdc : List ℕ) (azs y : List ℚ) :
    (compute_judgments_after_training preds qdc azs y).2.2 = slices y qdc := by
  induction qdc generalizing preds azs y with
  | nil => rfl
  | cons c cs ih =>
    simp only [compute_judgments_after_training, slices]
    rw [ih]

theorem cjat_outer_lengths (preds : List ℚ) (qdc : List ℕ) (azs y : List ℚ) :
    (compute_judgments_after_training preds qdc azs y).1.length = qdc.length ∧
    (compute_judgments_after_training preds qdc azs y).2.1.length = qdc.length ∧
    (compute_judgments_after_training preds qdc azs y).2.2.length = qdc.length := by
  induction qdc generalizing preds azs y with
  | nil => exact ⟨rfl, rfl, rfl⟩
  | cons c cs ih =>
    obtain ⟨h1, h2, h3⟩ := ih (preds.drop c) (azs.drop c) (y.drop c)
    simp only [compute_judgments_after_training, List.length_cons]
    exact ⟨by rw [h1], by rw [h2], by rw [h3]⟩

theorem cjat_inner_lengths (qdc : List ℕ) :
    ∀ (preds azs y : List ℚ), qdc.sum = preds.length →
      qdc.sum = azs.length → qdc.sum = y.length →
      ∀ i, i < qdc.length →
        ((compute_judgments_after_training preds qdc azs y).1.getD i []).length
            = qdc.getD i 0 ∧
        ((compute_judgments_after_training preds qdc azs y).2.1.getD i []).length
            = qdc.getD i 0 ∧
        ((compute_judgments_after_training preds qdc azs y).2.2.getD i []).length
            = qdc.getD i 0 := by
  induction qdc with
  | nil => intro preds azs y _ _ _ i hi; simp at hi
  | cons c cs ih =>
    intro preds azs y hp ha hy i hi
    simp only [List.sum_cons] at hp ha hy
    cases i with
    | zero =>
      simp only [compute_judgments_after_training, List.getD_cons_zero]
      refine ⟨?_, ?_, ?_⟩
      · rw [queryJudgments_length]; simp [List.length_take]; omega
      · rw [queryJudgments_length]; simp [List.length_take]; omega
      · simp [List.length_take]; omega
    | succ j =>
      have hj : j < cs.length := by simpa using hi
      have hrec := ih (preds.drop c) (azs.drop c) (y.drop c)
        (by simp [List.length_drop]; omega)
        (by simp [List.length_drop]; omega)
        (by simp [List.length_drop]; omega) j hj
      simpa only [compute_judgments_after_training, List.getD_cons_succ]
        using hrec

theorem cjat_model_perm (qdc : List ℕ) :
    ∀ (preds azs y : List ℚ), qdc.sum = preds.length →
      qdc.sum = azs.length → qdc.sum = y.length →
      ∀ i, i < qdc.length →
        ((compute_judgments_after_training preds qdc azs y).1.getD i []).Perm
          (((slices y qdc).getD i []).map truncQ) ∧
        ((compute_judgments_after_training preds qdc azs y).2.1.getD i []).Perm
          (((slices y qdc).getD i []).map truncQ) := by
  induction qdc with
  | nil => intro preds azs y _ _ _ i hi; simp at hi
  | cons c cs ih =>
    intro preds azs y hp ha hy i hi
    simp only [List.sum_cons] at hp ha hy
    cases i with
    | zero =>
      simp only [compute_judgments_after_training, slices,
        List.getD_cons_zero]
      constructor
      · exact queryJudgments_perm (preds.take c) (y.take c)
          (by simp [List.length_take]; omega)
      · exact queryJudgments_perm (azs.take c) (y.take c)
          (by simp [List.length_take]; omega)
    | succ j =>
      have hj : j < cs.length := by simpa using hi
      have hrec := ih (preds.drop c) (azs.drop c) (y.drop c)
        (by simp [List.length_drop]; omega)
        (by simp [List.length_drop]; omega)
        (by simp [List.length_drop]; omega) j hj
      simpa only [compute_judgments_after_training, slices,
        List.getD_cons_succ] using hrec

theorem cjat_model_of_monotone (qdc : List ℕ) :
    ∀ (preds azs y : List ℚ), qdc.sum = preds.length → qdc.sum = y.length →
      (∀ s ∈ slices preds qdc, s.Pairwise (· < ·)) →
      (∀ s ∈ slices y qdc, s.Pairwise (· < ·)) →
      (compute_judgments_after_training preds qdc azs y).1 =
        (slices y qdc).map (List.map truncQ) := by
  induction qdc with
  | nil => intro preds azs y _ _ _ _; rfl
  | cons c cs ih =>
    intro preds azs y hp hy hps hys
    simp only [List.sum_cons] at hp hy
    simp only [compute_judgments_after_training, slices, List.map_cons]
    congr 1
    · exact queryJudgments_of_monotone (preds.take c) (y.take c)
        (hps _ (by simp [slices]))
        (hys _ (by simp [slices]))
        (by simp [List.length_take]; omega)
    · exact ih (preds.drop c) (azs.drop c) (y.drop c)
        (by simp [List.length_drop]; omega)
        (by simp [List.length_drop]; omega)
        (fun s hs => hps s (by simp [slices, hs]))
        (fun s hs => hys s (by simp [slices, hs]))

theorem escape_query_eq_escapeRef (q : List Char) :
    escape_query q = escapeRef q := by
  induction q with
  | nil => rfl
  | cons ch rest ih =>
    have hsplit : escape_query (ch :: rest) =
        escape_query [ch] ++ escape_query rest := by
      have := escape_foldl_append reservedChars [ch] rest
      simpa [escape_query] using this
    rw [hsplit, ih, escape_query_singleton]
    simp [escapeRef]

theorem escapeRef_of_no_reserved (q : List Char)
    (h : ∀ c ∈ q, c ∉ reservedChars) : escapeRef q = q := by
  induction q with
  | nil => rfl
  | cons ch rest ih =>
    have hch : ch ∉ reservedChars := h ch (List.mem_cons_self ch rest)
    have hrest := ih (fun c hc => h c (List.mem_cons_of_mem ch hc))
    simp [escapeRef, hch] at hrest ⊢
    exact hrest

/-! ### Lemmas about `dcg_at_k` and `ndcg_at_k` -/

theorem getD_drop_one (t : List ℝ) (j : ℕ) :
    (t.drop 1).getD j 0 = t.getD (1 + j) 0 := by
  simp only [List.getD_eq_getElem?_getD, List.getElem?_drop]

theorem zipLog_sum (f : ℕ → ℝ) (xs : List ℝ) :
    ∀ start : ℕ,
      ((xs.zip ((List.range' start xs.length).map f)).map
          (fun p => p.1 / p.2)).sum =
        ∑ j ∈ Finset.range xs.length, xs.getD j 0 / f (start + j) := by
  induction xs with
  | nil => intro start; simp
  | cons x xs ih =>
    intro start
    rw [List.length_cons, List.range'_succ, List.map_cons, List.zip_cons_cons,
      List.map_cons, List.sum_cons, ih (start + 1), Finset.sum_range_succ']
    simp only [List.getD_cons_succ, List.getD_cons_zero, Nat.add_zero]
    rw [add_comm]
    congr 1
    apply Finset.sum_congr rfl
    intro j _
    congr 2
    omega

theorem dcg_at_k_eq_ref (r : List ℝ) (k : ℕ) :
    dcg_at_k r k 0 = some (dcgRef r k 0) ∧
    dcg_at_k r k 1 = some (dcgRef r k 1) := by
  by_cases ht : r.take k = []
  · constructor
    · simp [dcg_at_k, dcgRef, ht]
    · simp [dcg_at_k, dcgRef, ht]
  · have hlen : 1 ≤ (r.take k).length := by
      cases h : r.take k with
      | nil => exact absurd h ht
      | cons a l => simp
    constructor
    · rw [dcg_at_k, dcgRef]
      rw [if_neg ht, if_pos (rfl : (0 : ℕ) = 0), if_pos (rfl : (0 : ℕ) = 0)]
      congr 1
      congr 1
      have hdrop : (r.take k).length - 1 = ((r.take k).drop 1).length := by
        simp
      rw [hdrop, zipLog_sum (fun i => Real.logb 2 (i : ℝ)) ((r.take k).drop 1) 2]
      rw [← Nat.Ico_succ_right, Finset.sum_Ico_eq_sum_range]
      have hn : (r.take k).length + 1 - 2 = ((r.take k).drop 1).length := by
        simp only [List.length_drop]
        omega
      rw [hn]
      apply Finset.sum_congr rfl
      intro j _
      rw [getD_drop_one]
      congr 2
      omega
    · rw [dcg_at_k, dcgRef]
      rw [if_neg ht, if_neg (by norm_num : ¬ (1 : ℕ) = 0),
        if_pos (rfl : (1 : ℕ) = 1), if_neg (by norm_num : ¬ (1 : ℕ) = 0)]
      congr 1
      rw [zipLog_sum (fun i => Real.logb 2 (i : ℝ)) (r.take k) 2]
      rw [← Nat.Ico_succ_right, Finset.sum_Ico_eq_sum_range]
      have hn : (r.take k).length + 1 - 1 = (r.take k).length := by omega
      rw [hn]
      apply Finset.sum_congr rfl
      intro j _
      have harg : 1 + j - 1 = j := by omega
      rw [harg]
      congr 1
      push_cast
      ring_nf

theorem ndcg_at_k_eq_ref (r : List ℝ) (k : ℕ) :
    ndcg_at_k r k 0 = some (ndcgRef r k 0) ∧
    ndcg_at_k r k 1 = some (ndcgRef r k 1) := by
  constructor
  · rw [ndcg_at_k, ndcgRef, (dcg_at_k_eq_ref (sortDesc r) k).1,
      (dcg_at_k_eq_ref r k).1]
    by_cases h : dcgRef (sortDesc r) k 0 = 0
    · simp [h]
    · simp [h]
  · rw [ndcg_at_k, ndcgRef, (dcg_at_k_eq_ref (sortDesc r) k).2,
      (dcg_at_k_eq_ref r k).2]
    by_cases h : dcgRef (sortDesc r) k 1 = 0
    · simp [h]
    · simp [h]

theorem sumCount_eq (k : ℕ) (l : List (List ℝ)) :
    sumCount k l = some ((l.map (fun r => ndcgRef r k 0)).sum,
      (l.filter (fun r => ndcgRef r k 0 ≠ 0)).length) := by
  induction l with
  | nil => simp [sumCount]
  | cons r rest ih =>
    rw [sumCount, (ndcg_at_k_eq_ref r k).1, Option.some_bind, ih,
      Option.map_some']
    by_cases h : ndcgRef r k 0 = 0
    · simp [h, List.filter_cons]
    · simp [h, List.filter_cons]

theorem rangeLoop_some (ndcgs : List (List ℝ)) (ks : List ℕ)
    (h : ∀ k ∈ ks, (ndcgs.filter (fun r => ndcgRef r k 0 ≠ 0)).length ≠ 0) :
    rangeLoop ndcgs ks = some (ks.map (fun k =>
      (ndcgs.map (fun r => ndcgRef r k 0)).sum /
        ((ndcgs.filter (fun r => ndcgRef r k 0 ≠ 0)).length : ℝ))) := by
  induction ks with
  | nil => simp [rangeLoop]
  | cons k ks ih =>
    have hc := h k (List.mem_cons_self k ks)
    rw [rangeLoop, sumCount_eq]
    simp only [Option.some_bind]
    rw [if_neg hc, ih (fun k' hk' => h k' (List.mem_cons_of_mem _ hk')),
      Option.map_some', List.map_cons]

theorem rangeLoop_none (ndcgs : List (List ℝ)) (ks : List ℕ) (k : ℕ)
    (hk : k ∈ ks)
    (h : (ndcgs.filter (fun r => ndcgRef r k 0 ≠ 0)).length = 0) :
    rangeLoop ndcgs ks = none := by
  induction ks with
  | nil => simp at hk
  | cons k' ks ih =>
    rw [rangeLoop, sumCount_eq]
    simp only [Option.some_bind]
    rcases List.mem_cons.mp hk with rfl | hk'
    · rw [if_pos h]
    · by_cases hc : (ndcgs.filter (fun r => ndcgRef r k' 0 ≠ 0)).length = 0
      · rw [if_pos hc]
      · rw [if_neg hc, ih hk', Option.map_none']

/-! ### Numeric bounds on base-2 logarithms -/

theorem logb_nat_lower (n p q : ℕ) (hq : 0 < q)
    (h : 2 ^ p < n ^ q) : (p : ℝ) / q < Real.logb 2 n := by
  have h2 : (1 : ℝ) < 2 := one_lt_two
  have hlt : ((2 : ℝ)) ^ p < ((n : ℝ)) ^ q := by exact_mod_cast h
  have hmono := Real.logb_lt_logb h2 (pow_pos two_pos p) hlt
  rw [Real.logb_pow, Real.logb_pow, Real.logb_self_eq_one h2, mul_one]
    at hmono
  rw [div_lt_iff₀ (by positivity)]
  nlinarith [hmono]

theorem logb_nat_upper (n p q : ℕ) (hn : 0 < n) (hq : 0 < q)
    (h : n ^ q < 2 ^ p) : Real.logb 2 n < (p : ℝ) / q := by
  have h2 : (1 : ℝ) < 2 := one_lt_two
  have hlt : ((n : ℝ)) ^ q < ((2 : ℝ)) ^ p := by exact_mod_cast h
  have hn' : (0 : ℝ) < (n : ℝ) := by exact_mod_cast hn
  have hmono := Real.logb_lt_logb h2 (pow_pos hn' q) hlt
  rw [Real.logb_pow, Real.logb_pow, Real.logb_self_eq_one h2, mul_one]
    at hmono
  rw [lt_div_iff₀ (by positivity)]
  nlinarith [hmono]

theorem logb2_3_lo : (1.5849 : ℝ) < Real.logb 2 3 := by
  have h := logb_nat_lower 3 15849 10000 (by norm_num) (by norm_num)
  have : ((3 : ℕ) : ℝ) = 3 := by norm_num
  rw [this] at h
  calc (1.5849 : ℝ) = (15849 : ℝ) / 10000 := by norm_num
    _ < Real.logb 2 3 := h

theorem logb2_3_hi : Real.logb 2 3 < (1.5850 : ℝ) := by
  have h := logb_nat_upper 3 15850 10000 (by norm_num) (by norm_num)
    (by norm_num)
  have : ((3 : ℕ) : ℝ) = 3 := by norm_num
  rw [this] at h
  calc Real.logb 2 3 < (15850 : ℝ) / 10000 := h
    _ = (1.5850 : ℝ) := by norm_num

theorem logb2_6_lo : (2.5849 : ℝ) < Real.logb 2 6 := by
  have h := logb_nat_lower 6 25849 10000 (by norm_num) (by norm_num)
  have : ((6 : ℕ) : ℝ) = 6 := by norm_num
  rw [this] at h
  calc (2.5849 : ℝ) = (25849 : ℝ) / 10000 := by norm_num
    _ < Real.logb 2 6 := h

theorem logb2_6_hi : Real.logb 2 6 < (2.5850 : ℝ) := by
  have h := logb_nat_upper 6 25850 10000 (by norm_num) (by norm_num)
    (by norm_num)
  have : ((6 : ℕ) : ℝ) = 6 := by norm_num
  rw [this] at h
  calc Real.logb 2 6 < (25850 : ℝ) / 10000 := h
    _ = (2.5850 : ℝ) := by norm_num

theorem logb2_7_lo : (2.8073 : ℝ) < Real.logb 2 7 := by
  have h := logb_nat_lower 7 28073 10000 (by norm_num) (by norm_num)
  have : ((7 : ℕ) : ℝ) = 7 := by norm_num
  rw [this] at h
  calc (2.8073 : ℝ) = (28073 : ℝ) / 10000 := by norm_num
    _ < Real.logb 2 7 := h

theorem logb2_7_hi : Real.logb 2 7 < (2.8074 : ℝ) := by
  have h := logb_nat_upper 7 28074 10000 (by norm_num) (by norm_num)
    (by norm_num)
  have : ((7 : ℕ) : ℝ) = 7 := by norm_num
  rw [this] at h
  calc Real.logb 2 7 < (28074 : ℝ) / 10000 := h
    _ = (2.8074 : ℝ) := by norm_num

theorem logb2_9_lo : (3.1699 : ℝ) < Real.logb 2 9 := by
  have h := logb_nat_lower 9 31699 10000 (by norm_num) (by norm_num)
  have : ((9 : ℕ) : ℝ) = 9 := by norm_num
  rw [this] at h
  calc (3.1699 : ℝ) = (31699 : ℝ) / 10000 := by norm_num
    _ < Real.logb 2 9 := h

theorem logb2_9_hi : Real.logb 2 9 < (3.1700 : ℝ) := by
  have h := logb_nat_upper 9 31700 10000 (by norm_num) (by norm_num)
    (by norm_num)
  have : ((9 : ℕ) : ℝ) = 9 := by norm_num
  rw [this] at h
  calc Real.logb 2 9 < (31700 : ℝ) / 10000 := h
    _ = (3.1700 : ℝ) := by norm_num

theorem logb2_2 : Real.logb 2 2 = 1 := Real.logb_self_eq_one one_lt_two

theorem logb2_4 : Real.logb 2 4 = 2 := by
  have h : (4 : ℝ) = 2 ^ (2 : ℕ) := by norm_num
  rw [h, Real.logb_pow, Real.logb_self_eq_one one_lt_two]
  norm_num

theorem logb2_8 : Real.logb 2 8 = 3 := by
  have h : (8 : ℝ) = 2 ^ (3 : ℕ) := by norm_num
  rw [h, Real.logb_pow, Real.logb_self_eq_one one_lt_two]
  norm_num

theorem logb2_3_pos : (0 : ℝ) < Real.logb 2 3 :=
  Real.logb_pos one_lt_two (by norm_num)

/-! ### Claim theorems -/

/-- C1: `dcg_at_k` agrees with the reference DCG definition of the
specification for methods 0 and 1 (truncation to the first `k` entries, never
padded; empty truncation gives `0.0`; method 0 adds `t[0]` and discounts
position `i ≥ 2` by `log2(i)`; method 1 discounts position `i ≥ 1` by
`log2(i+1)`), and on the worked example `[3,2,3,0,0,1,2,2,3,0]` it returns
`3.0` at `k = 1`, `5.0` at `k = 2`, a value within `10⁻³` of `9.60511773` at
`k = 10`, and the same value at `k = 11` as at `k = 10`. -/
theorem dcg_at_k_correct :
    (∀ (r : List ℝ) (k : ℕ),
      dcg_at_k r k 0 = some (dcgRef r k 0) ∧
      dcg_at_k r k 1 = some (dcgRef r k 1)) ∧
    dcg_at_k [3, 2, 3, 0, 0, 1, 2, 2, 3, 0] 1 0 = some 3 ∧
    dcg_at_k [3, 2, 3, 0, 0, 1, 2, 2, 3, 0] 2 0 = some 5 ∧
    (∃ v, dcg_at_k [3, 2, 3, 0, 0, 1, 2, 2, 3, 0] 10 0 = some v ∧
      |v - 9.60511773| < 1 / 1000) ∧
    dcg_at_k [3, 2, 3, 0, 0, 1, 2, 2, 3, 0] 11 0 =
      dcg_at_k [3, 2, 3, 0, 0, 1, 2, 2, 3, 0] 10 0 := by
  refine ⟨dcg_at_k_eq_ref, ?_, ?_, ?_, ?_⟩
  · simp [dcg_at_k]
  · have h1 : List.range' 2 1 = [2] := rfl
    simp [dcg_at_k, h1, Real.logb_self_eq_one]
    norm_num [Real.logb_self_eq_one]
  · have h9 : List.range' 2 9 = [2, 3, 4, 5, 6, 7, 8, 9, 10] := rfl
    have hval : dcg_at_k [3, 2, 3, 0, 0, 1, 2, 2, 3, 0] 10 0 =
        some (3 + (2 / Real.logb 2 2 + (3 / Real.logb 2 3 +
          (0 / Real.logb 2 4 + (0 / Real.logb 2 5 + (1 / Real.logb 2 6 +
          (2 / Real.logb 2 7 + (2 / Real.logb 2 8 + (3 / Real.logb 2 9 +
          (0 / Real.logb 2 10 + 0)))))))))) := by
      simp [dcg_at_k, h9]
    refine ⟨_, hval, ?_⟩
    have e2 : 2 / Real.logb 2 2 = 2 := by rw [logb2_2]; norm_num
    have e4 : 0 / Real.logb 2 4 = 0 := zero_div _
    have e5 : 0 / Real.logb 2 5 = 0 := zero_div _
    have e8 : 2 / Real.logb 2 8 = 2 / 3 := by rw [logb2_8]
    have e10 : 0 / Real.logb 2 10 = 0 := zero_div _
    have h3p : (0 : ℝ) < Real.logb 2 3 := by linarith [logb2_3_lo]
    have h6p : (0 : ℝ) < Real.logb 2 6 := by linarith [logb2_6_lo]
    have h7p : (0 : ℝ) < Real.logb 2 7 := by linarith [logb2_7_lo]
    have h9p : (0 : ℝ) < Real.logb 2 9 := by linarith [logb2_9_lo]
    have b3hi : 3 / Real.logb 2 3 < 3 / 1.5849 :=
      div_lt_div_of_pos_left (by norm_num) (by norm_num) logb2_3_lo
    have b3lo : (3 : ℝ) / 1.5850 < 3 / Real.logb 2 3 :=
      div_lt_div_of_pos_left (by norm_num) h3p logb2_3_hi
    have b6hi : 1 / Real.logb 2 6 < 1 / 2.5849 :=
      div_lt_div_of_pos_left (by norm_num) (by norm_num) logb2_6_lo
    have b6lo : (1 : ℝ) / 2.5850 < 1 / Real.logb 2 6 :=
      div_lt_div_of_pos_left (by norm_num) h6p logb2_6_hi
    have b7hi : 2 / Real.logb 2 7 < 2 / 2.8073 :=
      div_lt_div_of_pos_left (by norm_num) (by norm_num) logb2_7_lo
    have b7lo : (2 : ℝ) / 2.8074 < 2 / Real.logb 2 7 :=
      div_lt_div_of_pos_left (by norm_num) h7p logb2_7_hi
    have b9hi : 3 / Real.logb 2 9 < 3 / 3.1699 :=
      div_lt_div_of_pos_left (by norm_num) (by norm_num) logb2_9_lo
    have b9lo : (3 : ℝ) / 3.1700 < 3 / Real.logb 2 9 :=
      div_lt_div_of_pos_left (by norm_num) h9p logb2_9_hi
    rw [abs_lt]
    constructor
    · nlinarith [b3lo, b6lo, b7lo, b9lo, e2, e4, e5, e8, e10]
    · nlinarith [b3hi, b6hi, b7hi, b9hi, e2, e4, e5, e8, e10]
  · have h11 : ([3, 2, 3, 0, 0, 1, 2, 2, 3, 0] : List ℝ).take 11 =
        [3, 2, 3, 0, 0, 1, 2, 2, 3, 0] := List.take_of_length_le (by norm_num)
    have h10 : ([3, 2, 3, 0, 0, 1, 2, 2, 3, 0] : List ℝ).take 10 =
        [3, 2, 3, 0, 0, 1, 2, 2, 3, 0] := List.take_of_length_le (by norm_num)
    rw [dcg_at_k, dcg_at_k, h11, h10]

/-- C2: `ndcg_at_k` equals `dcg_at_k` of the input divided by `dcg_at_k` of
the descending-sorted input for methods 0 and 1, returning exactly `0.0`
instead of dividing when the ideal DCG is zero; on the worked examples it
returns `1.0` for `[3,2,3,0,0,1,2,2,3,0]` at `k = 1`, a value within `10⁻³`
of `0.9203032` for `[2,1,2,0]` at `k = 4` method 0, a value within `10⁻³` of
`0.9651955` at method 1, `0.0` for `[0]` at `k = 1`, and `1.0` for `[1]` at
`k = 2`. -/
theorem ndcg_at_k_correct :
    (∀ (r : List ℝ) (k : ℕ),
      ndcg_at_k r k 0 = some (ndcgRef r k 0) ∧
      ndcg_at_k r k 1 = some (ndcgRef r k 1)) ∧
    ndcg_at_k [3, 2, 3, 0, 0, 1, 2, 2, 3, 0] 1 0 = some 1 ∧
    (∃ v, ndcg_at_k [2, 1, 2, 0] 4 0 = some v ∧
      |v - 0.9203032| < 1 / 1000) ∧
    (∃ v, ndcg_at_k [2, 1, 2, 0] 4 1 = some v ∧
      |v - 0.9651955| < 1 / 1000) ∧
    ndcg_at_k [(0 : ℝ)] 1 0 = some 0 ∧
    ndcg_at_k [(1 : ℝ)] 2 0 = some 1 := by
  have h3p : (0 : ℝ) < Real.logb 2 3 := by linarith [logb2_3_lo]
  have hsort4 : sortDesc [2, 1, 2, 0] = [2, 2, 1, 0] := by
    norm_num [sortDesc, List.insertionSort, List.orderedInsert]
  have hrange3 : List.range' 2 3 = [2, 3, 4] := rfl
  have b1hi : 1 / Real.logb 2 3 < 1 / 1.5849 :=
    div_lt_div_of_pos_left (by norm_num) (by norm_num) logb2_3_lo
  have b1lo : (1 : ℝ) / 1.5850 < 1 / Real.logb 2 3 :=
    div_lt_div_of_pos_left (by norm_num) h3p logb2_3_hi
  have b2hi : 2 / Real.logb 2 3 < 2 / 1.5849 :=
    div_lt_div_of_pos_left (by norm_num) (by norm_num) logb2_3_lo
  have b2lo : (2 : ℝ) / 1.5850 < 2 / Real.logb 2 3 :=
    div_lt_div_of_pos_left (by norm_num) h3p logb2_3_hi
  refine ⟨ndcg_at_k_eq_ref, ?_, ?_, ?_, ?_, ?_⟩
  · have hsort : sortDesc [3, 2, 3, 0, 0, 1, 2, 2, 3, 0] =
        [3, 3, 3, 2, 2, 2, 1, 0, 0, 0] := by
      norm_num [sortDesc, List.insertionSort, List.orderedInsert]
    have hmax : dcg_at_k [3, 3, 3, 2, 2, 2, 1, 0, 0, 0] 1 0 = some 3 := by
      simp [dcg_at_k]
    have hnum : dcg_at_k [3, 2, 3, 0, 0, 1, 2, 2, 3, 0] 1 0 = some 3 := by
      simp [dcg_at_k]
    rw [ndcg_at_k, hsort, hmax, hnum]
    norm_num
  · have hmax : dcg_at_k [2, 2, 1, 0] 4 0 =
        some (2 + (2 / Real.logb 2 2 + (1 / Real.logb 2 3 +
          (0 / Real.logb 2 4 + 0)))) := by
      simp [dcg_at_k, hrange3]
    have hnum : dcg_at_k [2, 1, 2, 0] 4 0 =
        some (2 + (1 / Real.logb 2 2 + (2 / Real.logb 2 3 +
          (0 / Real.logb 2 4 + 0)))) := by
      simp [dcg_at_k, hrange3]
    have e22 : 2 / Real.logb 2 2 = 2 := by rw [logb2_2]; norm_num
    have e12 : 1 / Real.logb 2 2 = 1 := by rw [logb2_2]; norm_num
    have e04 : 0 / Real.logb 2 4 = 0 := zero_div _
    have hdpos : (0 : ℝ) < 2 + (2 / Real.logb 2 2 + (1 / Real.logb 2 3 +
        (0 / Real.logb 2 4 + 0))) := by
      rw [e22, e04]
      have : (0 : ℝ) < 1 / Real.logb 2 3 := div_pos one_pos h3p
      linarith
    have hne : 2 + (2 / Real.logb 2 2 + (1 / Real.logb 2 3 +
        (0 / Real.logb 2 4 + 0))) ≠ 0 := ne_of_gt hdpos
    rw [ndcg_at_k, hsort4, hmax, hnum]
    rw [Option.some_bind, if_neg hne, Option.map_some']
    refine ⟨_, rfl, ?_⟩
    rw [abs_lt]
    have hQhi : (2 + (1 / Real.logb 2 2 + (2 / Real.logb 2 3 +
          (0 / Real.logb 2 4 + 0)))) /
        (2 + (2 / Real.logb 2 2 + (1 / Real.logb 2 3 +
          (0 / Real.logb 2 4 + 0)))) < 0.9213032 := by
      rw [div_lt_iff₀ hdpos]
      nlinarith [b1lo, b2hi, e22, e12, e04]
    have hQlo : (0.9193032 : ℝ) <
        (2 + (1 / Real.logb 2 2 + (2 / Real.logb 2 3 +
          (0 / Real.logb 2 4 + 0)))) /
        (2 + (2 / Real.logb 2 2 + (1 / Real.logb 2 3 +
          (0 / Real.logb 2 4 + 0)))) := by
      rw [lt_div_iff₀ hdpos]
      nlinarith [b1hi, b2lo, e22, e12, e04]
    constructor <;> [linarith [hQlo]; linarith [hQhi]]
  · have hrange4 : List.range' 2 4 = [2, 3, 4, 5] := rfl
    have hmax : dcg_at_k [2, 2, 1, 0] 4 1 =
        some (2 / Real.logb 2 2 + (2 / Real.logb 2 3 +
          (1 / Real.logb 2 4 + (0 / Real.logb 2 5 + 0)))) := by
      simp [dcg_at_k, hrange4]
    have hnum : dcg_at_k [2, 1, 2, 0] 4 1 =
        some (2 / Real.logb 2 2 + (1 / Real.logb 2 3 +
          (2 / Real.logb 2 4 + (0 / Real.logb 2 5 + 0)))) := by
      simp [dcg_at_k, hrange4]
    have e22 : 2 / Real.logb 2 2 = 2 := by rw [logb2_2]; norm_num
    have e24 : 2 / Real.logb 2 4 = 1 := by rw [logb2_4]; norm_num
    have e14 : 1 / Real.logb 2 4 = 1 / 2 := by rw [logb2_4]
    have e05 : 0 / Real.logb 2 5 = 0 := zero_div _
    have hdpos : (0 : ℝ) < 2 / Real.logb 2 2 + (2 / Real.logb 2 3 +
        (1 / Real.logb 2 4 + (0 / Real.logb 2 5 + 0))) := by
      rw [e22, e14, e05]
      have : (0 : ℝ) < 2 / Real.logb 2 3 := div_pos two_pos h3p
      linarith
    have hne : 2 / Real.logb 2 2 + (2 / Real.logb 2 3 +
        (1 / Real.logb 2 4 + (0 / Real.logb 2 5 + 0))) ≠ 0 := ne_of_gt hdpos
    rw [ndcg_at_k, hsort4, hmax, hnum]
    rw [Option.some_bind, if_neg hne, Option.map_some']
    refine ⟨_, rfl, ?_⟩
    rw [abs_lt]
    have hQhi : (2 / Real.logb 2 2 + (1 / Real.logb 2 3 +
          (2 / Real.logb 2 4 + (0 / Real.logb 2 5 + 0)))) /
        (2 / Real.logb 2 2 + (2 / Real.logb 2 3 +
          (1 / Real.logb 2 4 + (0 / Real.logb 2 5 + 0)))) < 0.9661955 := by
      rw [div_lt_iff₀ hdpos]
      nlinarith [b1hi, b2lo, e22, e24, e14, e05]
    have hQlo : (0.9641955 : ℝ) <
        (2 / Real.logb 2 2 + (1 / Real.logb 2 3 +
          (2 / Real.logb 2 4 + (0 / Real.logb 2 5 + 0)))) /
        (2 / Real.logb 2 2 + (2 / Real.logb 2 3 +
          (1 / Real.logb 2 4 + (0 / Real.logb 2 5 + 0)))) := by
      rw [lt_div_iff₀ hdpos]
      nlinarith [b1lo, b2hi, e22, e24, e14, e05]
    constructor <;> [linarith [hQlo]; linarith [hQhi]]
  · have hsort0 : sortDesc [(0 : ℝ)] = [0] := by
      norm_num [sortDesc, List.insertionSort, List.orderedInsert]
    have h0 : dcg_at_k [(0 : ℝ)] 1 0 = some 0 := by simp [dcg_at_k]
    rw [ndcg_at_k, hsort0, h0]
    norm_num
  · have hsort1 : sortDesc [(1 : ℝ)] = [1] := by
      norm_num [sortDesc, List.insertionSort, List.orderedInsert]
    have h1 : dcg_at_k [(1 : ℝ)] 2 0 = some 1 := by simp [dcg_at_k]
    rw [ndcg_at_k, hsort1, h1]
    norm_num

/-- C4: `get_range_ndcg(ndcgs, k_start, k_end)` produces one value per cutoff
`k` in `[k_start, k_end)`, each equal to the sum over all relevance sequences
of their NDCG at `k` divided by the count of sequences whose NDCG at `k` is
non-zero (not by the total number of sequences); and when at some cutoff every
sequence's NDCG is zero, the call fails with a division-by-zero error
(modelled as `none`) instead of returning a value. -/
theorem get_range_ndcg_correct (ndcgs : List (List ℝ))
    (k_start k_end : ℕ) :
    ((∀ k ∈ List.range' k_start (k_end - k_start),
        (ndcgs.filter (fun r => ndcgRef r k 0 ≠ 0)).length ≠ 0) →
      get_range_ndcg ndcgs k_start k_end =
        some ((List.range' k_start (k_end - k_start)).map (fun k =>
          (ndcgs.map (fun r => ndcgRef r k 0)).sum /
            ((ndcgs.filter (fun r => ndcgRef r k 0 ≠ 0)).length : ℝ)))) ∧
    (∀ k ∈ List.range' k_start (k_end - k_start),
      (∀ r ∈ ndcgs, ndcgRef r k 0 = 0) →
        get_range_ndcg ndcgs k_start k_end = none) := by
  constructor
  · intro h
    exact rangeLoop_some ndcgs _ h
  · intro k hk hall
    have hlen0 : (ndcgs.filter (fun r => ndcgRef r k 0 ≠ 0)).length = 0 := by
      rw [List.length_eq_zero, List.filter_eq_nil_iff]
      intro r hr
      simpa using hall r hr
    exact rangeLoop_none ndcgs _ k hk hlen0

/-- Witness for C4: a single query with relevance `[1]` over the cutoff range
`[1, 2)` averages to `[1.0]`. -/
theorem get_range_ndcg_correct_witness :
    get_range_ndcg [[(1 : ℝ)]] 1 2 = some [1] := by
  have hsort1 : sortDesc [(1 : ℝ)] = [1] := by
    norm_num [sortDesc, List.insertionSort, List.orderedInsert]
  have hd : dcgRef [(1 : ℝ)] 1 0 = 1 := by
    rw [dcgRef]
    norm_num
  have hndcg : ndcgRef [(1 : ℝ)] 1 0 = 1 := by
    rw [ndcgRef, hsort1, hd]
    norm_num
  have hflen : ([[(1 : ℝ)]].filter
      (fun r => ndcgRef r 1 0 ≠ 0)).length = 1 := by
    simp [List.filter_cons, hndcg]
  have hrange : List.range' 1 (2 - 1) = [1] := rfl
  have h := (get_range_ndcg_correct [[(1 : ℝ)]] 1 2).1 (by
    rw [hrange]
    intro k hk
    rw [List.mem_singleton.mp hk, hflen]
    norm_num)
  rw [h, hrange]
  simp [hndcg, hflen]

/-- C10: for a relevance sequence already sorted in descending order, any
cutoff `k` and method 0 or 1, if the ideal DCG at `k` is non-zero then
`ndcg_at_k` returns exactly 1 — numerator and denominator are the same
computation on the same sequence. -/
theorem ndcg_sorted_eq_one (r : List ℝ) (k : ℕ) (method : ℕ)
    (hsorted : List.Sorted (· ≥ ·) r) (hm : method = 0 ∨ method = 1)
    (hne : dcgRef r k method ≠ 0) :
    ndcg_at_k r k method = some 1 := by
  have hsd : sortDesc r = r := List.Sorted.insertionSort_eq hsorted
  obtain hm | hm := hm <;> subst hm
  · rw [ndcg_at_k, hsd, (dcg_at_k_eq_ref r k).1, Option.some_bind,
      if_neg hne, Option.map_some', div_self hne]
  · rw [ndcg_at_k, hsd, (dcg_at_k_eq_ref r k).2, Option.some_bind,
      if_neg hne, Option.map_some', div_self hne]

/-- Witness for C10 at the sorted singleton `[1]`. -/
theorem ndcg_sorted_eq_one_witness :
    ndcg_at_k [(1 : ℝ)] 1 0 = some 1 := by
  refine ndcg_sorted_eq_one [(1 : ℝ)] 1 0 ?_ (Or.inl rfl) ?_
  · exact List.sorted_singleton 1
  · rw [dcgRef]
    norm_num

/-- C5 counterexample: with a relevance list whose truncation at `k` is
empty, an unsupported method value does not raise — `dcg_at_k([], 1, 2)`
returns `0.0` instead of failing. -/
theorem dcg_bad_method_counterexample :
    dcg_at_k ([] : List ℝ) 1 2 = some 0 ∧
      dcg_at_k ([] : List ℝ) 1 2 ≠ none := by
  constructor <;> simp [dcg_at_k]

/-- C5 (amended): for every relevance sequence and cutoff, a method value
other than 0 and 1 fails with an invalid-argument error whenever the
truncation of the sequence to the first `k` entries is non-empty; when the
truncation is empty, `0.0` is returned before the method is inspected. -/
theorem dcg_bad_method (r : List ℝ) (k : ℕ) (method : ℕ)
    (h0 : method ≠ 0) (h1 : method ≠ 1) :
    (r.take k ≠ [] → dcg_at_k r k method = none) ∧
    (r.take k = [] → dcg_at_k r k method = some 0) := by
  constructor
  · intro ht
    rw [dcg_at_k, if_neg ht, if_neg h0, if_neg h1]
  · intro ht
    rw [dcg_at_k, if_pos ht]

/-- Witness for C5 (amended): method 2 raises on `[1]` at `k = 1` and
returns `0.0` on the empty list. -/
theorem dcg_bad_method_witness :
    dcg_at_k [(1 : ℝ)] 1 2 = none ∧
      dcg_at_k ([] : List ℝ) 0 2 = some 0 :=
  ⟨(dcg_bad_method [(1 : ℝ)] 1 2 (by norm_num) (by norm_num)).1 (by simp),
   (dcg_bad_method ([] : List ℝ) 0 2 (by norm_num) (by norm_num)).2 rfl⟩

/-- C8: `escape_query` returns the input with each occurrence of each reserved
character in `\ + - & | ! ( ) { } [ ] ^ " ~ * ? : /` prefixed by a single
backslash and all other characters unchanged; a string with no reserved
characters is returned unchanged, and nothing is double-escaped (the backslash
is escaped first, exactly once per original occurrence). -/
theorem escape_query_correct (q : List Char) :
    escape_query q = escapeRef q ∧
      ((∀ c ∈ q, c ∉ reservedChars) → escape_query q = q) :=
  ⟨escape_query_eq_escapeRef q, fun h =>
    (escape_query_eq_escapeRef q).trans (escapeRef_of_no_reserved q h)⟩

/-- Witness for C8 at a concrete reserved-free input. -/
theorem escape_query_correct_witness :
    (∀ c ∈ ['a', 'b'], c ∉ reservedChars) ∧
      escape_query ['a', 'b'] = ['a', 'b'] :=
  ⟨by decide, (escape_query_correct ['a', 'b']).2 (by decide)⟩

/-- C7: when the query document counts sum to the length of the score,
search-score and label vectors, each of the three returned collections has one
entry per query, in input order, and the `i`-th per-query array has length
equal to the `i`-th count. -/
theorem cjat_shapes (preds : List ℚ) (qdc : List ℕ) (azs y : List ℚ)
    (hp : qdc.sum = preds.length) (ha : qdc.sum = azs.length)
    (hy : qdc.sum = y.length) :
    (compute_judgments_after_training preds qdc azs y).1.length = qdc.length ∧
    (compute_judgments_after_training preds qdc azs y).2.1.length =
      qdc.length ∧
    (compute_judgments_after_training preds qdc azs y).2.2.length =
      qdc.length ∧
    ∀ i, i < qdc.length →
      ((compute_judgments_after_training preds qdc azs y).1.getD i []).length
          = qdc.getD i 0 ∧
      ((compute_judgments_after_training preds qdc azs y).2.1.getD i []).length
          = qdc.getD i 0 ∧
      ((compute_judgments_after_training preds qdc azs y).2.2.getD i []).length
          = qdc.getD i 0 := by
  obtain ⟨h1, h2, h3⟩ := cjat_outer_lengths preds qdc azs y
  exact ⟨h1, h2, h3, cjat_inner_lengths qdc preds azs y hp ha hy⟩

/-- Witness for C7 at a concrete two-query input. -/
theorem cjat_shapes_witness :
    (compute_judgments_after_training [(1 : ℚ), 2, 3] [2, 1] [(3 : ℚ), 2, 1]
        [(1 : ℚ), 0, 2]).1.length = 2 ∧
    ((compute_judgments_after_training [(1 : ℚ), 2, 3] [2, 1] [(3 : ℚ), 2, 1]
        [(1 : ℚ), 0, 2]).1.getD 0 []).length = 2 ∧
    ((compute_judgments_after_training [(1 : ℚ), 2, 3] [2, 1] [(3 : ℚ), 2, 1]
        [(1 : ℚ), 0, 2]).2.1.getD 1 []).length = 1 :=
  ⟨(cjat_shapes _ _ _ _ (by decide) (by decide) (by decide)).1,
   ((cjat_shapes _ _ _ _ (by decide) (by decide) (by decide)).2.2.2 0
      (by decide)).1,
   ((cjat_shapes _ _ _ _ (by decide) (by decide) (by decide)).2.2.2 1
      (by decide)).2.1⟩

/-- C3 counterexample: scores `[1, 2]` and labels `[1/2, 3/2]` are both
strictly increasing, yet the returned model judgment array `[[0, 1]]` is not
the label slice `[[1/2, 3/2]]` — the assignment into the integer judgment
array truncates the labels. -/
theorem cjat_monotone_counterexample :
    List.Pairwise (· < ·) [(1 : ℚ), 2] ∧
    List.Pairwise (· < ·) [mkRat 1 2, mkRat 3 2] ∧
    (compute_judgments_after_training [(1 : ℚ), 2] [2] [(1 : ℚ), 2]
        [mkRat 1 2, mkRat 3 2]).1.map (List.map (fun z : ℤ => (z : ℚ))) ≠
      [[mkRat 1 2, mkRat 3 2]] := by
  refine ⟨by decide, by decide, by decide⟩

/-- C3 (amended): when within each query slice the scores are strictly
increasing and the labels are strictly increasing, the returned model judgment
arrays are exactly the label slices truncated toward zero to integers — hence
exactly the original label slices whenever all labels are integral. -/
theorem cjat_monotone (preds : List ℚ) (qdc : List ℕ) (azs y : List ℚ)
    (hp : qdc.sum = preds.length) (hy : qdc.sum = y.length)
    (hps : ∀ s ∈ slices preds qdc, s.Pairwise (· < ·))
    (hys : ∀ s ∈ slices y qdc, s.Pairwise (· < ·)) :
    (compute_judgments_after_training preds qdc azs y).1 =
      (slices y qdc).map (List.map truncQ) :=
  cjat_model_of_monotone qdc preds azs y hp hy hps hys

/-- Witness for C3 (amended) with integral labels: the labels are reproduced
exactly. -/
theorem cjat_monotone_witness :
    (compute_judgments_after_training [(1 : ℚ), 2] [2] [(9 : ℚ), 9]
        [(3 : ℚ), 7]).1 = [[3, 7]] := by
  rw [cjat_monotone [(1 : ℚ), 2] [2] [(9 : ℚ), 9] [(3 : ℚ), 7]
    (by decide) (by decide) (by decide) (by decide)]
  decide

/-- C6 counterexample: for a query with all-equal scores and non-integer
labels `[1/2, 1/2]`, the multiset of returned judgments `{0, 0}` differs from
the multiset of labels `{1/2, 1/2}`. -/
theorem cjat_multiset_counterexample :
    ¬ (((compute_judgments_after_training [(5 : ℚ), 5] [2] [(5 : ℚ), 5]
        [mkRat 1 2, mkRat 1 2]).1.getD 0 []).map
          (fun z : ℤ => (z : ℚ))).Perm [mkRat 1 2, mkRat 1 2] := by
  decide

/-- C6 (amended): for every query slice — including slices with all-equal
scores — the multiset of judgment values in the model and in the secondary
judgment arrays equals the multiset of the slice's labels truncated toward
zero to integers, hence the multiset of the labels themselves whenever all
labels are integral; the assignment of values to positions under ties is not
uniquely defined. -/
theorem cjat_multiset (preds : List ℚ) (qdc : List ℕ) (azs y : List ℚ)
    (hp : qdc.sum = preds.length) (ha : qdc.sum = azs.length)
    (hy : qdc.sum = y.length) (i : ℕ) (hi : i < qdc.length) :
    ((compute_judgments_after_training preds qdc azs y).1.getD i []).Perm
      (((slices y qdc).getD i []).map truncQ) ∧
    ((compute_judgments_after_training preds qdc azs y).2.1.getD i []).Perm
      (((slices y qdc).getD i []).map truncQ) :=
  cjat_model_perm qdc preds azs y hp ha hy i hi

/-- Witness for C6 (amended) at an all-equal-scores query with integral
labels. -/
theorem cjat_multiset_witness :
    ((compute_judgments_after_training [(5 : ℚ), 5, 5] [3] [(5 : ℚ), 5, 5]
        [(1 : ℚ), 2, 3]).1.getD 0 []).Perm [(1 : ℤ), 2, 3] := by
  have h := (cjat_multiset [(5 : ℚ), 5, 5] [3] [(5 : ℚ), 5, 5]
    [(1 : ℚ), 2, 3] (by decide) (by decide) (by decide) 0 (by decide)).1
  have heval : ((slices [(1 : ℚ), 2, 3] [3]).getD 0 []).map truncQ =
      [(1 : ℤ), 2, 3] := by decide
  rwa [heval] at h

/-- C9: the model and secondary judgment arrays carry integer entries obtained
by truncating each assigned label (numpy allocates them with the integer dtype
of the argsort result), so non-integer labels are not preserved there, while
the baseline output keeps the original label values exactly. -/
theorem cjat_integer_truncation :
    (∀ (preds : List ℚ) (qdc : List ℕ) (azs y : List ℚ),
      (compute_judgments_after_training preds qdc azs y).2.2 =
        slices y qdc) ∧
    (compute_judgments_after_training [(0 : ℚ)] [1] [(0 : ℚ)]
        [mkRat 1 2]).1 = [[0]] ∧
    (compute_judgments_after_training [(0 : ℚ)] [1] [(0 : ℚ)]
        [mkRat 1 2]).2.1 = [[0]] ∧
    (compute_judgments_after_training [(0 : ℚ)] [1] [(0 : ℚ)]
        [mkRat 1 2]).1.map (List.map (fun z : ℤ => (z : ℚ))) ≠
      [[mkRat 1 2]] ∧
    (compute_judgments_after_training [(0 : ℚ)] [1] [(0 : ℚ)]
        [mkRat 1 2]).2.2 = [[mkRat 1 2]] :=
  ⟨fun preds qdc azs y => cjat_baseline preds qdc azs y,
   by decide, by decide, by decide, by decide⟩

end L2R
